import Mathlib

/-!
Verification of the masked numeric-input formatting and validation logic
of this repository (ATM/account-number masking, digit grouping, key
filtering, validation).

Strings are embedded as `List Char` (JavaScript strings are sequences of
characters; every operation used by the sources — `replace`, `slice`,
`match`, `join`, `trim`, regex tests — is modelled as the corresponding
list operation).  JavaScript's `\d` character class is exactly the ASCII
digits `0`–`9`, which coincides with `Char.isDigit`.
-/

/-- The whitespace characters recognised by JavaScript `String.prototype.trim`
(ASCII whitespace, NBSP, Unicode space separators, line/paragraph
separators and the BOM), enumerated explicitly. -/
def isJsWhitespace (c : Char) : Bool :=
  c == ' ' || c == '\t' || c == '\n' || c == '\r' || c == '\x0b' ||
  c == '\x0c' || c == '\u00a0' || c == '\u1680' || c == '\u2000' ||
  c == '\u2001' || c == '\u2002' || c == '\u2003' || c == '\u2004' ||
  c == '\u2005' || c == '\u2006' || c == '\u2007' || c == '\u2008' ||
  c == '\u2009' || c == '\u200a' || c == '\u2028' || c == '\u2029' ||
  c == '\u202f' || c == '\u205f' || c == '\u3000' || c == '\ufeff'

/-- JavaScript `value.trim()`: strip leading and trailing whitespace. -/
def jsTrim (s : List Char) : List Char :=
  ((s.dropWhile isJsWhitespace).reverse.dropWhile isJsWhitespace).reverse

/-- The separator token `" - "` used by every formatter in the repository. -/
def sepDash : List Char := [' ', '-', ' ']

/-- `extractDigits(raw, maxDigits)` of the component interface:
`value.replace(/\D/g, '').slice(0, maxDigits)` — keep the digit characters,
in order, truncated to the configured maximum
(src/two-inputs.tsx lines 44–48, src/unnamed/part_000 lines 6–10). -/
def extractDigits (maxDigits : Nat) (s : List Char) : List Char :=
  (s.filter Char.isDigit).take maxDigits

namespace TwoInputs

/-- `formatAtmNumber` of src/two-inputs.tsx lines 43–60: strip non-digits
(`replace(/\D/g,'')`), truncate to 16 (`slice(0, 16)`), then group by the
slice cascade on the digit count (≤4, ≤8, ≤12, else), joining the slices
with `" - "`.  JS `slice(a)` is `drop a` and `slice(a,b)` is
`(drop a).take (b-a)`. -/
def formatAtmNumber (value : List Char) : List Char :=
  let digits := value.filter Char.isDigit
  let limitedDigits := digits.take 16
  if limitedDigits.length ≤ 4 then
    limitedDigits
  else if limitedDigits.length ≤ 8 then
    limitedDigits.take 4 ++ sepDash ++ limitedDigits.drop 4
  else if limitedDigits.length ≤ 12 then
    limitedDigits.take 4 ++ sepDash ++ (limitedDigits.drop 4).take 4 ++
      sepDash ++ limitedDigits.drop 8
  else
    limitedDigits.take 4 ++ sepDash ++ (limitedDigits.drop 4).take 4 ++
      sepDash ++ (limitedDigits.drop 8).take 4 ++ sepDash ++
      limitedDigits.drop 12

/-- `formatAccountNumber` of src/two-inputs.tsx lines 63–78: strip
non-digits, truncate to 10, group by the slice cascade (≤3, ≤6, else)
joined with `" - "`. -/
def formatAccountNumber (value : List Char) : List Char :=
  let digits := value.filter Char.isDigit
  let limitedDigits := digits.take 10
  if limitedDigits.length ≤ 3 then
    limitedDigits
  else if limitedDigits.length ≤ 6 then
    limitedDigits.take 3 ++ sepDash ++ limitedDigits.drop 3
  else
    limitedDigits.take 3 ++ sepDash ++ (limitedDigits.drop 3).take 3 ++
      sepDash ++ limitedDigits.drop 6

end TwoInputs

namespace AtmMask

/-- `limitedDigits.match(/.{1,4}/g)` of src/unnamed/part_000 line 13:
greedy split into chunks of at most 4 characters (on a digit-only string,
`.` matches every character; a `null` match result on the empty string is
turned into `[]` by `|| []`). -/
def chunksOf4 (l : List Char) : List (List Char) :=
  if h : l = [] then [] else l.take 4 :: chunksOf4 (l.drop 4)
termination_by l.length
decreasing_by
  simp only [List.length_drop]
  have hp : 0 < l.length := List.length_pos.mpr h
  omega

/-- JavaScript `Array.prototype.join(sep)`. -/
def joinSep (sep : List Char) : List (List Char) → List Char
  | [] => []
  | [g] => g
  | g :: gs => g ++ sep ++ joinSep sep gs

/-- `formatAtmNumber` of src/unnamed/part_000 lines 5–15: strip
non-digits, truncate to 16, split into chunks of up to 4 and join with
`' - '`. -/
def formatAtmNumber (value : List Char) : List Char :=
  let digits := value.filter Char.isDigit
  let limitedDigits := digits.take 16
  let groups := chunksOf4 limitedDigits
  joinSep sepDash groups

/-- The relevant fields of a DOM keyboard event as read by `handleKeyDown`
(src/unnamed/part_000 lines 23–51): the legacy numeric `keyCode` plus the
Ctrl and Shift modifier flags. -/
structure KeyEvent where
  keyCode : Nat
  ctrlKey : Bool
  shiftKey : Bool

/-- The control/navigation part of the allow condition of `handleKeyDown`
(src/unnamed/part_000 lines 28–29 and 36–37): backspace 8, tab 9,
escape 27, enter 13, delete 46 (`[8, 9, 27, 13, 46].indexOf(e.keyCode) !== -1`),
and the range 35–39 (`e.keyCode >= 35 && e.keyCode <= 39`), i.e.
End 35, Home 36, ArrowLeft 37, ArrowUp 38, ArrowRight 39. -/
def isControlNavKey (keyCode : Nat) : Bool :=
  [8, 9, 27, 13, 46].contains keyCode || (35 ≤ keyCode && keyCode ≤ 39)

/-- The clipboard/selection part of the allow condition of `handleKeyDown`
(src/unnamed/part_000 lines 30–35): Ctrl+A 65, Ctrl+C 67, Ctrl+V 86,
Ctrl+X 88, Ctrl+Z 90. -/
def isClipboardCombo (e : KeyEvent) : Bool :=
  (e.keyCode == 65 && e.ctrlKey) || (e.keyCode == 67 && e.ctrlKey) ||
  (e.keyCode == 86 && e.ctrlKey) || (e.keyCode == 88 && e.ctrlKey) ||
  (e.keyCode == 90 && e.ctrlKey)

/-- `handleKeyDown` of src/unnamed/part_000 lines 23–51, as a function
from the key event and the field's current value to whether the default
input behaviour is allowed (`true`) or suppressed by `preventDefault()`
(`false`).  `currentDigits` is `currentValue.replace(/\D/g, '')`; the
first `if` is the disjunction `isControlNavKey || isClipboardCombo`
(regrouped from the source's single flat `||` chain); then the 16-digit
cap check; then the digit-key check
`(e.shiftKey || e.keyCode < 48 || e.keyCode > 57) && (e.keyCode < 96 || e.keyCode > 105)`. -/
def handleKeyDown (e : KeyEvent) (currentValue : List Char) : Bool :=
  let currentDigits := currentValue.filter Char.isDigit
  if isControlNavKey e.keyCode || isClipboardCombo e then
    true
  else if 16 ≤ currentDigits.length then
    false
  else if (e.shiftKey || e.keyCode < 48 || 57 < e.keyCode) &&
      (e.keyCode < 96 || 105 < e.keyCode) then
    false
  else
    true

/-- Consume exactly `n` digit characters from the front of `s`
(the `\d{4}` pieces of the regex `/^\d{4} - \d{4} - \d{4} - \d{4}$/`),
returning the rest on success. -/
def consumeDigits : Nat → List Char → Option (List Char)
  | 0, s => some s
  | _ + 1, [] => none
  | n + 1, c :: s => if c.isDigit then consumeDigits n s else none

/-- Consume the literal `p` from the front of `s` (the `" - "` pieces of
the regex), returning the rest on success. -/
def consumeLit : List Char → List Char → Option (List Char)
  | [], s => some s
  | _ :: _, [] => none
  | c :: p, d :: s => if c == d then consumeLit p s else none

/-- `/^\d{4} - \d{4} - \d{4} - \d{4}$/.test(value)` of
src/unnamed/part_000 line 68: four runs of exactly four digits joined by
`" - "`, anchored at both ends (the remainder after the last run must be
empty). -/
def matchesAtmPattern (s : List Char) : Bool :=
  ((((((consumeDigits 4 s).bind (consumeLit sepDash)).bind
    (consumeDigits 4)).bind (consumeLit sepDash)).bind
    (consumeDigits 4)).bind (consumeLit sepDash)).bind
    (consumeDigits 4) == some []

/-- The three error messages `validateAtmNumber` can return, as the
spec's verdict-reason taxonomy: `required` is
`'ATM number is required'` (Empty), `tooShort` is
`'ATM number must be 16 digits'` (TooShort), `patternMismatch` is
`'ATM number must be in format: 0000 - 0000 - 0000 - 0000'`
(PatternMismatch). -/
inductive AtmError where
  | required
  | tooShort
  | patternMismatch
deriving DecidableEq, Repr

/-- `validateAtmNumber` of src/unnamed/part_000 lines 57–73.  `!value`
on a string is true exactly for the empty string, and
`value.trim() === ''` for all-whitespace strings; `digits` is
`value.replace(/\D/g, '')` (no truncation here); `none` models the
`return null` success case. -/
def validateAtmNumber (value : List Char) : Option AtmError :=
  if value = [] ∨ jsTrim value = [] then
    some .required
  else
    let digits := value.filter Char.isDigit
    if digits.length < 16 then
      some .tooShort
    else if !matchesAtmPattern value then
      some .patternMismatch
    else
      none

end AtmMask

/-- Modelled from the spec: the generic GroupSpec-driven partitioning
step of `formatGrouped(digits, spec)` (§4.2, §6) is not in src/ — the
repository holds only its ATM (`[4,4,4,4]`) and account (`[3,3,4]`)
instances.  Partition the digit string left-to-right into groups of the
configured lengths, stopping when the digits run out (a trailing group
may be shorter than its configured length). -/
def splitGroups : List Nat → List Char → List (List Char)
  | [], _ => []
  | _ :: _, [] => []
  | g :: gs, d => d.take g :: splitGroups gs (d.drop g)

/-- Modelled from the spec: `formatGrouped(digits, spec)` of §4.2/§6 —
partition into the GroupSpec's group lengths and join the groups with
the separator (no leading or trailing separator). -/
def formatGrouped (groups : List Nat) (sep : List Char) (d : List Char) :
    List Char :=
  AtmMask.joinSep sep (splitGroups groups d)

/-! ## Character-class and trimming lemmas -/

theorem isDigit_of_not_ws {c : Char} (h : isJsWhitespace c = true) :
    Char.isDigit c = false := by
  simp only [isJsWhitespace, Bool.or_eq_true, beq_iff_eq, or_assoc] at h
  rcases h with rfl | rfl | rfl | rfl | rfl | rfl | rfl | rfl | rfl | rfl |
    rfl | rfl | rfl | rfl | rfl | rfl | rfl | rfl | rfl | rfl | rfl | rfl |
    rfl | rfl | rfl <;> decide

theorem ws_of_digit_false {c : Char} (h : Char.isDigit c = true) :
    isJsWhitespace c = false := by
  cases hw : isJsWhitespace c with
  | false => rfl
  | true => rw [isDigit_of_not_ws hw] at h; exact absurd h (by decide)

theorem jsTrim_eq_nil_iff {s : List Char} :
    jsTrim s = [] ↔ ∀ c ∈ s, isJsWhitespace c = true := by
  unfold jsTrim
  rw [List.reverse_eq_nil_iff, List.dropWhile_eq_nil_iff]
  constructor
  · intro h c hc
    have hsplit := List.takeWhile_append_dropWhile isJsWhitespace s
    rw [← hsplit] at hc
    rcases List.mem_append.mp hc with h1 | h2
    · exact List.mem_takeWhile_imp h1
    · exact h c (List.mem_reverse.mpr h2)
  · intro h c hc
    exact h c
      (List.Sublist.mem (List.mem_reverse.mp hc) (List.dropWhile_sublist _))

/-! ## Chunking and joining lemmas -/

namespace AtmMask

theorem chunksOf4_nil : chunksOf4 [] = [] := by
  unfold chunksOf4; rfl

theorem chunksOf4_cons {l : List Char} (h : l ≠ []) :
    chunksOf4 l = l.take 4 :: chunksOf4 (l.drop 4) := by
  rw [chunksOf4]
  exact dif_neg h

theorem chunksOf4_small {l : List Char} (h : l ≠ []) (h4 : l.length ≤ 4) :
    chunksOf4 l = [l] := by
  rw [chunksOf4_cons h, List.take_of_length_le h4,
    List.drop_eq_nil_of_le h4, chunksOf4_nil]

theorem flatten_chunksOf4 (l : List Char) : (chunksOf4 l).flatten = l := by
  induction l using chunksOf4.induct with
  | case1 => simp [chunksOf4_nil]
  | case2 l h ih =>
    rw [chunksOf4_cons h, List.flatten_cons, ih, List.take_append_drop]

theorem mem_of_mem_chunksOf4 {l g : List Char} {c : Char}
    (hg : g ∈ chunksOf4 l) (hc : c ∈ g) : c ∈ l := by
  have : c ∈ (chunksOf4 l).flatten := List.mem_flatten_of_mem hg hc
  rwa [flatten_chunksOf4] at this

theorem joinSep_nil (sep : List Char) : joinSep sep [] = [] := rfl

theorem joinSep_single (sep g : List Char) : joinSep sep [g] = g := rfl

theorem joinSep_cons (sep g g2 : List Char) (t : List (List Char)) :
    joinSep sep (g :: g2 :: t) = g ++ sep ++ joinSep sep (g2 :: t) := rfl

theorem filter_sepDash : sepDash.filter Char.isDigit = [] := rfl

/-- Extracting digits from groups of digits joined by `" - "` recovers
their concatenation. -/
theorem filter_joinSep (gs : List (List Char))
    (h : ∀ g ∈ gs, ∀ c ∈ g, Char.isDigit c = true) :
    (joinSep sepDash gs).filter Char.isDigit = gs.flatten := by
  induction gs with
  | nil => rfl
  | cons g gs ih =>
    cases gs with
    | nil =>
      rw [joinSep_single, List.flatten_cons, List.flatten_nil,
        List.append_nil]
      exact List.filter_eq_self.mpr (h g (by simp))
    | cons g2 t =>
      rw [joinSep_cons, List.flatten_cons, List.filter_append,
        List.filter_append, filter_sepDash, List.append_nil,
        List.filter_eq_self.mpr (h g (by simp)),
        ih (fun g' hg' => h g' (List.mem_cons_of_mem _ hg'))]

end AtmMask

/-! ## The slice cascade equals chunk-and-join -/

/-- On at most 16 characters, the slice cascade of
src/two-inputs.tsx lines 50-59 computes exactly `chunksOf4` joined by
`" - "`. -/
theorem cascade_eq_chunks (l : List Char) (h : l.length <= 16) :
    (if l.length <= 4 then
      l
    else if l.length <= 8 then
      l.take 4 ++ sepDash ++ l.drop 4
    else if l.length <= 12 then
      l.take 4 ++ sepDash ++ (l.drop 4).take 4 ++ sepDash ++ l.drop 8
    else
      l.take 4 ++ sepDash ++ (l.drop 4).take 4 ++ sepDash ++
        (l.drop 8).take 4 ++ sepDash ++ l.drop 12) =
    AtmMask.joinSep sepDash (AtmMask.chunksOf4 l) := by
  split_ifs with h4 h8 h12
  · by_cases hne : l = []
    · subst hne; rw [AtmMask.chunksOf4_nil, AtmMask.joinSep_nil]
    · rw [AtmMask.chunksOf4_small hne h4, AtmMask.joinSep_single]
  · have hne : l ≠ [] := List.ne_nil_of_length_pos (by omega)
    have hd4 : l.drop 4 ≠ [] := by
      apply List.ne_nil_of_length_pos; rw [List.length_drop]; omega
    rw [AtmMask.chunksOf4_cons hne,
      AtmMask.chunksOf4_small hd4 (by rw [List.length_drop]; omega),
      AtmMask.joinSep_cons, AtmMask.joinSep_single]
  · have hne : l ≠ [] := List.ne_nil_of_length_pos (by omega)
    have hd4 : l.drop 4 ≠ [] := by
      apply List.ne_nil_of_length_pos; rw [List.length_drop]; omega
    have hd8 : l.drop 8 ≠ [] := by
      apply List.ne_nil_of_length_pos; rw [List.length_drop]; omega
    have hdd48 : (l.drop 4).drop 4 = l.drop 8 := by rw [List.drop_drop]
    rw [AtmMask.chunksOf4_cons hne, AtmMask.chunksOf4_cons hd4, hdd48,
      AtmMask.chunksOf4_small hd8 (by rw [List.length_drop]; omega),
      AtmMask.joinSep_cons, AtmMask.joinSep_cons, AtmMask.joinSep_single]
    simp [List.append_assoc]
  · have hne : l ≠ [] := List.ne_nil_of_length_pos (by omega)
    have hd4 : l.drop 4 ≠ [] := by
      apply List.ne_nil_of_length_pos; rw [List.length_drop]; omega
    have hd8 : l.drop 8 ≠ [] := by
      apply List.ne_nil_of_length_pos; rw [List.length_drop]; omega
    have hd12 : l.drop 12 ≠ [] := by
      apply List.ne_nil_of_length_pos; rw [List.length_drop]; omega
    have hdd48 : (l.drop 4).drop 4 = l.drop 8 := by rw [List.drop_drop]
    have hdd812 : (l.drop 8).drop 4 = l.drop 12 := by rw [List.drop_drop]
    rw [AtmMask.chunksOf4_cons hne, AtmMask.chunksOf4_cons hd4, hdd48,
      AtmMask.chunksOf4_cons hd8, hdd812,
      AtmMask.chunksOf4_small hd12 (by rw [List.length_drop]; omega),
      AtmMask.joinSep_cons, AtmMask.joinSep_cons, AtmMask.joinSep_cons,
      AtmMask.joinSep_single]
    simp [List.append_assoc]

/-! ## splitGroups lemmas -/

theorem splitGroups_nil_groups (d : List Char) : splitGroups [] d = [] := by
  cases d <;> rfl

theorem splitGroups_nil_digits (gs : List Nat) : splitGroups gs [] = [] := by
  cases gs <;> rfl

theorem splitGroups_cons (g : Nat) (gs : List Nat) {d : List Char}
    (h : d ≠ []) :
    splitGroups (g :: gs) d = d.take g :: splitGroups gs (d.drop g) := by
  cases d with
  | nil => exact absurd rfl h
  | cons c t => rfl

theorem flatten_splitGroups : ∀ (gs : List Nat) (d : List Char),
    d.length ≤ gs.sum → (splitGroups gs d).flatten = d := by
  intro gs
  induction gs with
  | nil =>
    intro d hd
    simp only [List.sum_nil, Nat.le_zero, List.length_eq_zero] at hd
    subst hd
    rfl
  | cons g gs ih =>
    intro d hd
    by_cases hne : d = []
    · subst hne; rw [splitGroups_nil_digits]; rfl
    · rw [splitGroups_cons g gs hne, List.flatten_cons]
      rw [ih (d.drop g) (by rw [List.length_drop]; simp at hd; omega)]
      exact List.take_append_drop g d

theorem mem_of_mem_splitGroups {gs : List Nat} {d g : List Char} {c : Char}
    (hlen : d.length ≤ gs.sum) (hg : g ∈ splitGroups gs d) (hc : c ∈ g) :
    c ∈ d := by
  have : c ∈ (splitGroups gs d).flatten := List.mem_flatten_of_mem hg hc
  rwa [flatten_splitGroups gs d hlen] at this

/-- On at most 4 characters one group of 4 splits exactly like the
chunker. -/
theorem splitGroups4_eq_chunks {l : List Char} (h : l.length ≤ 4) :
    splitGroups [4] l = AtmMask.chunksOf4 l := by
  by_cases hne : l = []
  · subst hne; rw [splitGroups_nil_digits, AtmMask.chunksOf4_nil]
  · rw [splitGroups_cons 4 [] hne, splitGroups_nil_groups,
      AtmMask.chunksOf4_small hne h, List.take_of_length_le h]

theorem splitGroups44_eq_chunks {l : List Char} (h : l.length ≤ 8) :
    splitGroups [4, 4] l = AtmMask.chunksOf4 l := by
  by_cases hne : l = []
  · subst hne; rw [splitGroups_nil_digits, AtmMask.chunksOf4_nil]
  · rw [splitGroups_cons 4 [4] hne, AtmMask.chunksOf4_cons hne,
      splitGroups4_eq_chunks (by rw [List.length_drop]; omega)]

theorem splitGroups444_eq_chunks {l : List Char} (h : l.length ≤ 12) :
    splitGroups [4, 4, 4] l = AtmMask.chunksOf4 l := by
  by_cases hne : l = []
  · subst hne; rw [splitGroups_nil_digits, AtmMask.chunksOf4_nil]
  · rw [splitGroups_cons 4 [4, 4] hne, AtmMask.chunksOf4_cons hne,
      splitGroups44_eq_chunks (by rw [List.length_drop]; omega)]

theorem splitGroups4444_eq_chunks {l : List Char} (h : l.length ≤ 16) :
    splitGroups [4, 4, 4, 4] l = AtmMask.chunksOf4 l := by
  by_cases hne : l = []
  · subst hne; rw [splitGroups_nil_digits, AtmMask.chunksOf4_nil]
  · rw [splitGroups_cons 4 [4, 4, 4] hne, AtmMask.chunksOf4_cons hne,
      splitGroups444_eq_chunks (by rw [List.length_drop]; omega)]

/-- On at most 10 characters, the account slice cascade of
src/two-inputs.tsx lines 71-77 computes exactly the `[3,3,4]` grouping
joined by `" - "`. -/
theorem account_cascade_eq_groups (l : List Char) (h : l.length ≤ 10) :
    (if l.length ≤ 3 then
      l
    else if l.length ≤ 6 then
      l.take 3 ++ sepDash ++ l.drop 3
    else
      l.take 3 ++ sepDash ++ (l.drop 3).take 3 ++ sepDash ++ l.drop 6) =
    AtmMask.joinSep sepDash (splitGroups [3, 3, 4] l) := by
  split_ifs with h3 h6
  · by_cases hne : l = []
    · subst hne; rw [splitGroups_nil_digits, AtmMask.joinSep_nil]
    · rw [splitGroups_cons 3 [3, 4] hne,
        List.drop_eq_nil_of_le h3, splitGroups_nil_digits,
        List.take_of_length_le h3, AtmMask.joinSep_single]
  · have hne : l ≠ [] := List.ne_nil_of_length_pos (by omega)
    have hd3 : l.drop 3 ≠ [] := by
      apply List.ne_nil_of_length_pos; rw [List.length_drop]; omega
    rw [splitGroups_cons 3 [3, 4] hne, splitGroups_cons 3 [4] hd3,
      List.take_of_length_le (by rw [List.length_drop]; omega : (l.drop 3).length ≤ 3),
      List.drop_eq_nil_of_le (by rw [List.length_drop]; omega : (l.drop 3).length ≤ 3),
      splitGroups_nil_digits, AtmMask.joinSep_cons, AtmMask.joinSep_single]
  · have hne : l ≠ [] := List.ne_nil_of_length_pos (by omega)
    have hd3 : l.drop 3 ≠ [] := by
      apply List.ne_nil_of_length_pos; rw [List.length_drop]; omega
    have hd6 : l.drop 6 ≠ [] := by
      apply List.ne_nil_of_length_pos; rw [List.length_drop]; omega
    have hdd36 : (l.drop 3).drop 3 = l.drop 6 := by rw [List.drop_drop]
    rw [splitGroups_cons 3 [3, 4] hne, splitGroups_cons 3 [4] hd3, hdd36,
      splitGroups_cons 4 [] hd6,
      List.take_of_length_le (by rw [List.length_drop]; omega : (l.drop 6).length ≤ 4),
      splitGroups_nil_groups, AtmMask.joinSep_cons, AtmMask.joinSep_cons,
      AtmMask.joinSep_single]
    simp [List.append_assoc]

/-! ## Characterising the ATM pattern matcher -/

namespace AtmMask

theorem consumeLit_eq_some {p s t : List Char} :
    consumeLit p s = some t ↔ s = p ++ t := by
  induction p generalizing s with
  | nil => simp [consumeLit]
  | cons c p ih =>
    cases s with
    | nil =>
      constructor
      · intro h; exact absurd h (by simp [consumeLit])
      · intro h; exact absurd h (by simp)
    | cons d s =>
      simp only [consumeLit, List.cons_append]
      by_cases hcd : c = d
      · subst hcd
        simp [ih]
      · rw [if_neg (by simpa using hcd)]
        constructor
        · intro h; exact absurd h (by simp)
        · intro h
          injection h with h1 _
          exact absurd h1.symm hcd

theorem consumeDigits_eq_some {n : Nat} {s t : List Char} :
    consumeDigits n s = some t ↔
    ∃ g, g.length = n ∧ (∀ c ∈ g, Char.isDigit c = true) ∧ s = g ++ t := by
  induction n generalizing s with
  | zero =>
    simp only [consumeDigits, Option.some_inj]
    constructor
    · intro h
      exact ⟨[], rfl, by simp, by simp [h]⟩
    · rintro ⟨g, hlen, -, rfl⟩
      rw [List.length_eq_zero] at hlen
      simp [hlen]
  | succ n ih =>
    cases s with
    | nil =>
      simp only [consumeDigits]
      constructor
      · intro h; exact absurd h (by simp)
      · rintro ⟨g, hlen, -, hs⟩
        cases g with
        | nil => simp at hlen
        | cons c2 g => simp at hs
    | cons c s =>
      simp only [consumeDigits]
      by_cases hc : c.isDigit
      · rw [if_pos hc, ih]
        constructor
        · rintro ⟨g, hlen, hdig, rfl⟩
          refine ⟨c :: g, by simp [hlen], ?_, by simp⟩
          intro x hx
          rcases List.mem_cons.mp hx with rfl | hx
          · exact hc
          · exact hdig x hx
        · rintro ⟨g, hlen, hdig, hs⟩
          cases g with
          | nil => simp at hlen
          | cons c2 g =>
            rw [List.cons_append] at hs
            injection hs with h1 h2
            subst h1
            exact ⟨g, by simpa using hlen,
              fun x hx => hdig x (List.mem_cons_of_mem _ hx), h2⟩
      · rw [if_neg hc]
        constructor
        · intro h; exact absurd h (by simp)
        · rintro ⟨g, hlen, hdig, hs⟩
          cases g with
          | nil => simp at hlen
          | cons c2 g =>
            rw [List.cons_append] at hs
            injection hs with h1 _
            subst h1
            exact absurd (hdig c (by simp)) (by simp [hc])

theorem consumeDigits_append {n : Nat} {g t : List Char}
    (hlen : g.length = n) (hdig : ∀ c ∈ g, Char.isDigit c = true) :
    consumeDigits n (g ++ t) = some t :=
  consumeDigits_eq_some.mpr ⟨g, hlen, hdig, rfl⟩

theorem consumeLit_append (p t : List Char) :
    consumeLit p (p ++ t) = some t :=
  consumeLit_eq_some.mpr rfl

/-- A string passes `/^\d{4} - \d{4} - \d{4} - \d{4}$/` exactly when it
decomposes into four all-digit runs of length 4 joined by `" - "`. -/
theorem matchesAtmPattern_iff {s : List Char} :
    matchesAtmPattern s = true ↔
    ∃ g1 g2 g3 g4 : List Char,
      g1.length = 4 ∧ g2.length = 4 ∧ g3.length = 4 ∧ g4.length = 4 ∧
      (∀ c ∈ g1, Char.isDigit c = true) ∧
      (∀ c ∈ g2, Char.isDigit c = true) ∧
      (∀ c ∈ g3, Char.isDigit c = true) ∧
      (∀ c ∈ g4, Char.isDigit c = true) ∧
      s = g1 ++ sepDash ++ g2 ++ sepDash ++ g3 ++ sepDash ++ g4 := by
  unfold matchesAtmPattern
  rw [beq_iff_eq]
  simp only [Option.bind_eq_some]
  constructor
  · rintro ⟨a6, ⟨a5, ⟨a4, ⟨a3, ⟨a2, ⟨a1, h1, h2⟩, h3⟩, h4⟩, h5⟩, h6⟩, h7⟩
    obtain ⟨g1, h1l, h1d, rfl⟩ := consumeDigits_eq_some.mp h1
    obtain rfl := consumeLit_eq_some.mp h2
    obtain ⟨g2, h2l, h2d, rfl⟩ := consumeDigits_eq_some.mp h3
    obtain rfl := consumeLit_eq_some.mp h4
    obtain ⟨g3, h3l, h3d, rfl⟩ := consumeDigits_eq_some.mp h5
    obtain rfl := consumeLit_eq_some.mp h6
    obtain ⟨g4, h4l, h4d, rfl⟩ := consumeDigits_eq_some.mp h7
    refine ⟨g1, g2, g3, g4, h1l, h2l, h3l, h4l, h1d, h2d, h3d, h4d, ?_⟩
    simp [List.append_assoc]
  · rintro ⟨g1, g2, g3, g4, h1l, h2l, h3l, h4l, h1d, h2d, h3d, h4d, rfl⟩
    refine ⟨g4,
      ⟨sepDash ++ g4,
        ⟨g3 ++ (sepDash ++ g4),
          ⟨sepDash ++ (g3 ++ (sepDash ++ g4)),
            ⟨g2 ++ (sepDash ++ (g3 ++ (sepDash ++ g4))),
              ⟨sepDash ++ (g2 ++ (sepDash ++ (g3 ++ (sepDash ++ g4)))),
                ?_,
                consumeLit_append sepDash _⟩,
              consumeDigits_append h2l h2d⟩,
            consumeLit_append sepDash _⟩,
          consumeDigits_append h3l h3d⟩,
        consumeLit_append sepDash _⟩,
      ?_⟩
    · simp only [List.append_assoc]
      exact consumeDigits_append h1l h1d
    · simpa using @consumeDigits_append 4 g4 [] h4l h4d

end AtmMask

/-! ## Validator helper lemmas -/

namespace AtmMask

/-- A string containing a digit is neither empty nor all-whitespace. -/
theorem not_empty_cond_of_digit {v : List Char} {c : Char} (hc : c ∈ v)
    (hd : Char.isDigit c = true) : ¬(v = [] ∨ jsTrim v = []) := by
  rintro (rfl | htrim)
  · exact absurd hc (List.not_mem_nil c)
  · have hws := jsTrim_eq_nil_iff.mp htrim c hc
    rw [ws_of_digit_false hd] at hws
    exact absurd hws (by decide)

theorem validateAtmNumber_eq_none_iff {v : List Char} :
    validateAtmNumber v = none ↔
    ¬(v = [] ∨ jsTrim v = []) ∧ 16 ≤ (v.filter Char.isDigit).length ∧
      matchesAtmPattern v = true := by
  unfold validateAtmNumber
  by_cases h1 : v = [] ∨ jsTrim v = []
  · rw [if_pos h1]
    simp [h1]
  · rw [if_neg h1]
    by_cases h2 : (v.filter Char.isDigit).length < 16
    · rw [if_pos h2]
      have hlt : ¬16 ≤ (v.filter Char.isDigit).length := by omega
      simp [h1, hlt]
    · rw [if_neg h2]
      by_cases h3 : matchesAtmPattern v = true
      · rw [if_neg (by simp [h3])]
        have hlen : 16 ≤ (v.filter Char.isDigit).length := by omega
        simp [h1, h3, hlen]
      · have hm : matchesAtmPattern v = false := by
          revert h3
          cases matchesAtmPattern v <;> simp
        rw [if_pos (by simp [hm])]
        simp [h1, hm]

/-- Every character of the digits-extracted-and-truncated list is a
digit. -/
theorem isDigit_of_mem_take_filter {s : List Char} {n : Nat} {c : Char}
    (hc : c ∈ (s.filter Char.isDigit).take n) : Char.isDigit c = true :=
  (List.mem_filter.mp (List.mem_of_mem_take hc)).2

/-- Extracting the digits back out of the chunk-formatted ATM string
recovers the truncated digit string. -/
theorem filter_formatAtmNumber (v : List Char) :
    (formatAtmNumber v).filter Char.isDigit =
    (v.filter Char.isDigit).take 16 := by
  unfold formatAtmNumber
  rw [filter_joinSep]
  · exact flatten_chunksOf4 _
  · intro g hg c hc
    exact isDigit_of_mem_take_filter (mem_of_mem_chunksOf4 hg hc)

/-- Chunking a concatenation of four blocks of four characters yields
exactly those blocks. -/
theorem chunksOf4_concat {g1 g2 g3 g4 : List Char}
    (h1 : g1.length = 4) (h2 : g2.length = 4) (h3 : g3.length = 4)
    (h4 : g4.length = 4) :
    chunksOf4 (g1 ++ (g2 ++ (g3 ++ g4))) = [g1, g2, g3, g4] := by
  have e1 : (g1 ++ (g2 ++ (g3 ++ g4))) ≠ [] := by
    simp [← List.length_pos]
    omega
  have e2 : (g2 ++ (g3 ++ g4)) ≠ [] := by
    simp [← List.length_pos]
    omega
  have e3 : (g3 ++ g4) ≠ [] := by
    simp [← List.length_pos]
    omega
  have e4 : g4 ≠ [] := by
    simp [← List.length_pos]
    omega
  rw [chunksOf4_cons e1, List.take_left' h1, List.drop_left' h1,
    chunksOf4_cons e2, List.take_left' h2, List.drop_left' h2,
    chunksOf4_cons e3, List.take_left' h3, List.drop_left' h3,
    chunksOf4_small e4 (by omega)]

/-- `formatAtmNumber` on a pure 16-digit string groups it 4-4-4-4. -/
theorem formatAtm_four_groups {g1 g2 g3 g4 : List Char}
    (h1 : g1.length = 4) (h2 : g2.length = 4) (h3 : g3.length = 4)
    (h4 : g4.length = 4)
    (hd : ∀ c ∈ g1 ++ (g2 ++ (g3 ++ g4)), Char.isDigit c = true) :
    formatAtmNumber (g1 ++ (g2 ++ (g3 ++ g4))) =
    g1 ++ sepDash ++ g2 ++ sepDash ++ g3 ++ sepDash ++ g4 := by
  simp only [formatAtmNumber]
  rw [List.filter_eq_self.mpr hd,
    List.take_of_length_le (by simp; omega),
    chunksOf4_concat h1 h2 h3 h4,
    joinSep_cons, joinSep_cons, joinSep_cons, joinSep_single]
  simp [List.append_assoc]

end AtmMask

/-! ## Bridging the two formatter implementations -/

/-- The two-inputs slice-cascade ATM formatter agrees with the part_000
chunk-and-join ATM formatter on every string. -/
theorem twoInputs_eq_atmMask (s : List Char) :
    TwoInputs.formatAtmNumber s = AtmMask.formatAtmNumber s :=
  cascade_eq_chunks ((s.filter Char.isDigit).take 16)
    (List.length_take_le 16 _)

/-- The account formatter rewritten as a `[3,3,4]` grouping. -/
theorem twoInputs_account_eq_grouped (s : List Char) :
    TwoInputs.formatAccountNumber s =
    AtmMask.joinSep sepDash
      (splitGroups [3, 3, 4] ((s.filter Char.isDigit).take 10)) :=
  account_cascade_eq_groups ((s.filter Char.isDigit).take 10)
    (List.length_take_le 10 _)

/-- Extracting the digits back out of the formatted account string
recovers the truncated digit string. -/
theorem filter_formatAccountNumber (v : List Char) :
    (TwoInputs.formatAccountNumber v).filter Char.isDigit =
    (v.filter Char.isDigit).take 10 := by
  rw [twoInputs_account_eq_grouped, AtmMask.filter_joinSep]
  · exact flatten_splitGroups [3, 3, 4] _ (by
      have := List.length_take_le 10 (v.filter Char.isDigit)
      simp only [List.sum_cons, List.sum_nil]
      omega)
  · intro g hg c hc
    exact AtmMask.isDigit_of_mem_take_filter
      (mem_of_mem_splitGroups (by
        have := List.length_take_le 10 (v.filter Char.isDigit)
        simp only [List.sum_cons, List.sum_nil]
        omega) hg hc)

/-! ## Canonical 16-digit strings and the validator -/

/-- A list decomposes into its four leading 4-character blocks and the
rest. -/
theorem decomp16 (D : List Char) :
    D = D.take 4 ++ ((D.drop 4).take 4 ++ ((D.drop 8).take 4 ++ D.drop 12)) := by
  have h1 : (D.drop 8).take 4 ++ D.drop 12 = D.drop 8 := by
    have h : D.drop 12 = (D.drop 8).drop 4 := by rw [List.drop_drop]
    rw [h, List.take_append_drop]
  have h2 : (D.drop 4).take 4 ++ D.drop 8 = D.drop 4 := by
    have h : D.drop 8 = (D.drop 4).drop 4 := by rw [List.drop_drop]
    rw [h, List.take_append_drop]
  rw [h1, h2, List.take_append_drop]

theorem exists_digit_of_filter_ne_nil {x : List Char}
    (h : x.filter Char.isDigit ≠ []) :
    ∃ c ∈ x, Char.isDigit c = true := by
  cases hf : x.filter Char.isDigit with
  | nil => exact absurd hf h
  | cons c t =>
    have hc : c ∈ x.filter Char.isDigit := by rw [hf]; exact List.mem_cons_self c t
    obtain ⟨hcx, hcd⟩ := List.mem_filter.mp hc
    exact ⟨c, hcx, hcd⟩

namespace AtmMask

/-- The formatted version of an all-digit 16-character string passes the
validator, and its digit content is exactly that string. -/
theorem validate_format_of_16 {D : List Char}
    (hd : ∀ c ∈ D, Char.isDigit c = true) (hlen : D.length = 16) :
    validateAtmNumber (formatAtmNumber D) = none ∧
    (formatAtmNumber D).filter Char.isDigit = D := by
  have l1 : (D.take 4).length = 4 := by
    rw [List.length_take]; omega
  have l2 : ((D.drop 4).take 4).length = 4 := by
    rw [List.length_take, List.length_drop]; omega
  have l3 : ((D.drop 8).take 4).length = 4 := by
    rw [List.length_take, List.length_drop]; omega
  have l4 : (D.drop 12).length = 4 := by
    rw [List.length_drop]; omega
  have d1 : ∀ c ∈ D.take 4, Char.isDigit c = true :=
    fun c hc => hd c (List.mem_of_mem_take hc)
  have d2 : ∀ c ∈ (D.drop 4).take 4, Char.isDigit c = true :=
    fun c hc => hd c (List.mem_of_mem_drop (List.mem_of_mem_take hc))
  have d3 : ∀ c ∈ (D.drop 8).take 4, Char.isDigit c = true :=
    fun c hc => hd c (List.mem_of_mem_drop (List.mem_of_mem_take hc))
  have d4 : ∀ c ∈ D.drop 12, Char.isDigit c = true :=
    fun c hc => hd c (List.mem_of_mem_drop hc)
  have hfmt : formatAtmNumber D =
      D.take 4 ++ sepDash ++ (D.drop 4).take 4 ++ sepDash ++
        (D.drop 8).take 4 ++ sepDash ++ D.drop 12 := by
    have hD := decomp16 D
    calc formatAtmNumber D
        = formatAtmNumber (D.take 4 ++ ((D.drop 4).take 4 ++
            ((D.drop 8).take 4 ++ D.drop 12))) := by rw [← hD]
      _ = _ := formatAtm_four_groups l1 l2 l3 l4 (by rw [← hD]; exact hd)
  have hfil : (formatAtmNumber D).filter Char.isDigit = D := by
    rw [filter_formatAtmNumber, List.filter_eq_self.mpr hd,
      List.take_of_length_le (by omega)]
  refine ⟨?_, hfil⟩
  apply validateAtmNumber_eq_none_iff.mpr
  refine ⟨?_, ?_, ?_⟩
  · obtain ⟨c, hcx, hcd⟩ := exists_digit_of_filter_ne_nil (x := formatAtmNumber D)
      (by rw [hfil]; exact List.ne_nil_of_length_pos (by omega))
    exact not_empty_cond_of_digit hcx hcd
  · rw [hfil]; omega
  · exact matchesAtmPattern_iff.mpr
      ⟨D.take 4, (D.drop 4).take 4, (D.drop 8).take 4, D.drop 12,
        l1, l2, l3, l4, d1, d2, d3, d4, hfmt⟩

/-- Reformatting the already-extracted digit string gives the same
formatted string. -/
theorem formatAtm_of_extracted (v : List Char) :
    formatAtmNumber ((v.filter Char.isDigit).take 16) = formatAtmNumber v := by
  show joinSep sepDash (chunksOf4 (List.take 16 (List.filter Char.isDigit
      (List.take 16 (List.filter Char.isDigit v))))) =
    joinSep sepDash (chunksOf4 (List.take 16 (List.filter Char.isDigit v)))
  rw [List.filter_eq_self.mpr
      (fun c hc => isDigit_of_mem_take_filter (s := v) hc),
    List.take_of_length_le (List.length_take_le 16 _)]

end AtmMask

/-! ## Claim theorems -/

/-- C6: for every input string, `extractDigits` returns an ordered
subsequence of the input made only of ASCII decimal digits, truncated to
the configured maximum, never fails (it is a total function), maps the
empty string to the empty string, and satisfies the spec's two examples:
`extractDigits("12-34 ab56") = "123456"` and `extractDigits` of a
20-digit string with maxDigits 16 is its first 16 digits. -/
theorem claim6_extractor_total_truncating (s : List Char) (n : Nat) :
    List.Sublist (extractDigits n s) s ∧
    (∀ c ∈ extractDigits n s, Char.isDigit c = true) ∧
    (extractDigits n s).length ≤ n ∧
    extractDigits n [] = [] ∧
    extractDigits 16 ("12-34 ab56".data) = "123456".data ∧
    extractDigits 16 ("12345678901234567890".data) =
      "1234567890123456".data ∧
    (extractDigits 16 ("12345678901234567890".data)).length = 16 := by
  refine ⟨?_, ?_, ?_, ?_, ?_, ?_, ?_⟩
  · exact (List.take_sublist _ _).trans (List.filter_sublist _)
  · intro c hc
    exact AtmMask.isDigit_of_mem_take_filter hc
  · exact List.length_take_le _ _
  · simp [extractDigits]
  · rfl
  · rfl
  · rfl

/-- C9: the slice-cascade ATM formatter of src/two-inputs.tsx and the
regex-chunking ATM formatter of src/unnamed/part_000 compute the same
function: on every input string both return the identical formatted
output. -/
theorem claim9_formatters_coincide (s : List Char) :
    TwoInputs.formatAtmNumber s = AtmMask.formatAtmNumber s :=
  twoInputs_eq_atmMask s

/-- C8: the validator maps every empty or all-whitespace input to the
Empty verdict (the `'ATM number is required'` message) and to no other
reason. -/
theorem claim8_empty_verdict (s : List Char)
    (h : ∀ c ∈ s, isJsWhitespace c = true) :
    AtmMask.validateAtmNumber s = some AtmMask.AtmError.required := by
  unfold AtmMask.validateAtmNumber
  rw [if_pos (Or.inr (jsTrim_eq_nil_iff.mpr h))]

theorem claim8_empty_verdict_witness :
    (∀ c ∈ ([' ', ' '] : List Char), isJsWhitespace c = true) ∧
    AtmMask.validateAtmNumber [' ', ' '] = some AtmMask.AtmError.required :=
  ⟨by decide, claim8_empty_verdict [' ', ' '] (by decide)⟩

/-- C5 (code evaluation at the failing input): the keydown filter
suppresses ArrowDown (keyCode 40) even in an empty field with zero
digits, while ArrowUp (38), ArrowLeft (37), ArrowRight (39), Home (36)
and End (35) pass — so not all four arrow keys are allowed, contrary to
the claim and to the component's own feature list. -/
theorem claim5_arrowDown_suppressed :
    AtmMask.handleKeyDown ⟨40, false, false⟩ [] = false ∧
    AtmMask.handleKeyDown ⟨38, false, false⟩ [] = true ∧
    AtmMask.handleKeyDown ⟨37, false, false⟩ [] = true ∧
    AtmMask.handleKeyDown ⟨39, false, false⟩ [] = true ∧
    AtmMask.handleKeyDown ⟨36, false, false⟩ [] = true ∧
    AtmMask.handleKeyDown ⟨35, false, false⟩ [] = true := by
  decide

/-- C4: when the key is neither a control/navigation key nor a
Ctrl-held clipboard shortcut and the field already holds at least 16
digits, the keydown filter suppresses the keystroke (calls
`preventDefault`), digit keystrokes included. -/
theorem claim4_cap_suppresses (e : AtmMask.KeyEvent) (v : List Char)
    (hnav : AtmMask.isControlNavKey e.keyCode = false)
    (hclip : AtmMask.isClipboardCombo e = false)
    (hfull : 16 ≤ (v.filter Char.isDigit).length) :
    AtmMask.handleKeyDown e v = false := by
  unfold AtmMask.handleKeyDown
  rw [hnav, hclip]
  simp [hfull]

theorem claim4_cap_suppresses_witness :
    AtmMask.isControlNavKey 53 = false ∧
    AtmMask.isClipboardCombo ⟨53, false, false⟩ = false ∧
    16 ≤ (("1234 - 5678 - 9012 - 3456".data).filter Char.isDigit).length ∧
    AtmMask.handleKeyDown ⟨53, false, false⟩
      ("1234 - 5678 - 9012 - 3456".data) = false :=
  ⟨by decide, by decide, by decide,
    claim4_cap_suppresses ⟨53, false, false⟩ _ (by decide) (by decide)
      (by decide)⟩

/-- C2: for every non-empty, non-all-whitespace string, the validator
returns the TooShort verdict (`'ATM number must be 16 digits'`) exactly
when the string holds strictly fewer than 16 digit characters; a string
with 16 or more digits is never rejected for that reason. -/
theorem claim2_tooShort_boundary (v : List Char)
    (h : ¬∀ c ∈ v, isJsWhitespace c = true) :
    AtmMask.validateAtmNumber v = some AtmMask.AtmError.tooShort ↔
      (v.filter Char.isDigit).length < 16 := by
  have hcond : ¬(v = [] ∨ jsTrim v = []) := by
    rintro (rfl | htrim)
    · exact h (by simp)
    · exact h (jsTrim_eq_nil_iff.mp htrim)
  unfold AtmMask.validateAtmNumber
  rw [if_neg hcond]
  by_cases h2 : (v.filter Char.isDigit).length < 16
  · rw [if_pos h2]
    simp [h2]
  · rw [if_neg h2]
    cases hm : AtmMask.matchesAtmPattern v <;> simp [h2]

theorem claim2_tooShort_boundary_witness :
    (¬∀ c ∈ ("1234 - 5678".data), isJsWhitespace c = true) ∧
    (AtmMask.validateAtmNumber ("1234 - 5678".data) =
        some AtmMask.AtmError.tooShort ↔
      (("1234 - 5678".data).filter Char.isDigit).length < 16) :=
  ⟨by decide, claim2_tooShort_boundary ("1234 - 5678".data) (by decide)⟩

/-- C1: round-trip — for every digit string of length at most the
configured maximum, extracting the digits of the formatted string
returns the digit string unchanged, both for the ATM configuration
(maxDigits 16, groups 4-4-4-4, separator `" - "`) and for the account
configuration (maxDigits 10, groups 3-3-4, separator `" - "`). -/
theorem claim1_roundtrip (d : List Char)
    (hd : ∀ c ∈ d, Char.isDigit c = true) :
    (d.length ≤ 16 →
      extractDigits 16 (TwoInputs.formatAtmNumber d) = d) ∧
    (d.length ≤ 10 →
      extractDigits 10 (TwoInputs.formatAccountNumber d) = d) := by
  constructor
  · intro h16
    unfold extractDigits
    rw [twoInputs_eq_atmMask, AtmMask.filter_formatAtmNumber,
      List.filter_eq_self.mpr hd, List.take_of_length_le h16,
      List.take_of_length_le h16]
  · intro h10
    unfold extractDigits
    rw [filter_formatAccountNumber, List.filter_eq_self.mpr hd,
      List.take_of_length_le h10, List.take_of_length_le h10]

theorem claim1_roundtrip_witness :
    extractDigits 16 (TwoInputs.formatAtmNumber ("12345".data)) =
      "12345".data ∧
    extractDigits 10 (TwoInputs.formatAccountNumber ("12345".data)) =
      "12345".data :=
  ⟨(claim1_roundtrip ("12345".data) (by decide)).1 (by decide),
   (claim1_roundtrip ("12345".data) (by decide)).2 (by decide)⟩

/-- C7: on digit strings of length at most the maximum, the source
formatters compute exactly the GroupSpec partition-and-join
`formatGrouped` for their configurations; `formatGrouped` maps the
empty digit string to the empty string and satisfies the spec's
examples (a shorter-than-spec final group stays unseparated, with no
leading or trailing separator). -/
theorem claim7_grouped_shape (d : List Char)
    (hd : ∀ c ∈ d, Char.isDigit c = true) :
    (d.length ≤ 16 →
      TwoInputs.formatAtmNumber d = formatGrouped [4, 4, 4, 4] sepDash d) ∧
    (d.length ≤ 10 →
      TwoInputs.formatAccountNumber d = formatGrouped [3, 3, 4] sepDash d) ∧
    formatGrouped [4, 4, 4, 4] sepDash [] = [] ∧
    formatGrouped [4, 4, 4, 4] sepDash ("12345".data) = "1234 - 5".data ∧
    formatGrouped [4, 4, 4, 4] sepDash ("123456789012".data) =
      "1234 - 5678 - 9012".data ∧
    formatGrouped [3, 3, 4] sepDash ("1234567890".data) =
      "123 - 456 - 7890".data := by
  refine ⟨?_, ?_, rfl, rfl, rfl, rfl⟩
  · intro h16
    rw [twoInputs_eq_atmMask]
    show AtmMask.joinSep sepDash
      (AtmMask.chunksOf4 ((d.filter Char.isDigit).take 16)) = _
    rw [List.filter_eq_self.mpr hd, List.take_of_length_le h16]
    unfold formatGrouped
    rw [splitGroups4444_eq_chunks h16]
  · intro h10
    rw [twoInputs_account_eq_grouped, List.filter_eq_self.mpr hd,
      List.take_of_length_le h10]
    rfl

theorem claim7_grouped_shape_witness :
    TwoInputs.formatAtmNumber ("12345".data) =
      formatGrouped [4, 4, 4, 4] sepDash ("12345".data) ∧
    TwoInputs.formatAccountNumber ("12345".data) =
      formatGrouped [3, 3, 4] sepDash ("12345".data) :=
  ⟨(claim7_grouped_shape ("12345".data) (by decide)).1 (by decide),
   (claim7_grouped_shape ("12345".data) (by decide)).2.1 (by decide)⟩

/-- C3: the validator accepts only strings that have BOTH at least the
required 16 digits AND the exact `dddd - dddd - dddd - dddd` shape; in
particular every raw 16-digit string without separators is rejected
with the PatternMismatch verdict. -/
theorem claim3_conjunction (v : List Char) :
    (AtmMask.validateAtmNumber v = none →
      16 ≤ (v.filter Char.isDigit).length ∧
        AtmMask.matchesAtmPattern v = true) ∧
    ((∀ c ∈ v, Char.isDigit c = true) → v.length = 16 →
      AtmMask.validateAtmNumber v =
        some AtmMask.AtmError.patternMismatch) := by
  constructor
  · intro h
    obtain ⟨-, hlen, hm⟩ := AtmMask.validateAtmNumber_eq_none_iff.mp h
    exact ⟨hlen, hm⟩
  · intro hd hlen
    have hne : ¬(v = [] ∨ jsTrim v = []) := by
      cases v with
      | nil => simp at hlen
      | cons c t =>
        exact AtmMask.not_empty_cond_of_digit (List.mem_cons_self c t)
          (hd c (List.mem_cons_self c t))
    have hm : AtmMask.matchesAtmPattern v = false := by
      cases hmv : AtmMask.matchesAtmPattern v
      · rfl
      · exfalso
        obtain ⟨g1, g2, g3, g4, h1, h2, h3, h4, -, -, -, -, heq⟩ :=
          AtmMask.matchesAtmPattern_iff.mp hmv
        rw [heq] at hlen
        simp [sepDash] at hlen
        omega
    unfold AtmMask.validateAtmNumber
    rw [if_neg hne, List.filter_eq_self.mpr hd, if_neg (by omega),
      if_pos (by simp [hm])]

theorem claim3_conjunction_witness :
    (16 ≤ (("1234 - 5678 - 9012 - 3456".data).filter Char.isDigit).length ∧
      AtmMask.matchesAtmPattern ("1234 - 5678 - 9012 - 3456".data) = true) ∧
    AtmMask.validateAtmNumber ("1234567890123456".data) =
      some AtmMask.AtmError.patternMismatch :=
  ⟨(claim3_conjunction ("1234 - 5678 - 9012 - 3456".data)).1 (by decide),
   (claim3_conjunction ("1234567890123456".data)).2 (by decide) (by decide)⟩

/-- C10: the part_000 validator returns null exactly on the strings the
part_000 formatter produces from 16 digits — a string is accepted iff it
carries exactly 16 digit characters and equals the formatter applied to
its own digit characters; consequently, formatting any input holding at
least 16 digit characters always validates. -/
theorem claim10_validator_accepts_formatted (v : List Char) :
    (AtmMask.validateAtmNumber v = none ↔
      (v.filter Char.isDigit).length = 16 ∧
        v = AtmMask.formatAtmNumber (v.filter Char.isDigit)) ∧
    (16 ≤ (v.filter Char.isDigit).length →
      AtmMask.validateAtmNumber (AtmMask.formatAtmNumber v) = none) := by
  have hdig : ∀ c ∈ v.filter Char.isDigit, Char.isDigit c = true :=
    fun c hc => (List.mem_filter.mp hc).2
  constructor
  · constructor
    · intro h
      obtain ⟨hne, hlen, hm⟩ := AtmMask.validateAtmNumber_eq_none_iff.mp h
      obtain ⟨g1, g2, g3, g4, h1, h2, h3, h4, d1, d2, d3, d4, heq⟩ :=
        AtmMask.matchesAtmPattern_iff.mp hm
      have hfil : v.filter Char.isDigit = g1 ++ (g2 ++ (g3 ++ g4)) := by
        rw [heq]
        simp [List.filter_append, AtmMask.filter_sepDash,
          List.filter_eq_self.mpr d1, List.filter_eq_self.mpr d2,
          List.filter_eq_self.mpr d3, List.filter_eq_self.mpr d4]
      constructor
      · rw [hfil]
        simp [h1, h2, h3, h4]
      · have hdig4 : ∀ c ∈ g1 ++ (g2 ++ (g3 ++ g4)),
            Char.isDigit c = true := by
          rw [← hfil]; exact hdig
        rw [hfil, AtmMask.formatAtm_four_groups h1 h2 h3 h4 hdig4]
        exact heq
    · rintro ⟨hlen, hv⟩
      have h2 := AtmMask.validate_format_of_16 hdig hlen
      rw [hv]
      exact h2.1
  · intro h16
    have hlenD : ((v.filter Char.isDigit).take 16).length = 16 := by
      rw [List.length_take]; omega
    have hdigD : ∀ c ∈ (v.filter Char.isDigit).take 16,
        Char.isDigit c = true :=
      fun c hc => AtmMask.isDigit_of_mem_take_filter hc
    have h2 := AtmMask.validate_format_of_16 hdigD hlenD
    rw [← AtmMask.formatAtm_of_extracted v]
    exact h2.1

theorem claim10_validator_accepts_formatted_witness :
    AtmMask.validateAtmNumber
      (AtmMask.formatAtmNumber ("1234567890123456".data)) = none :=
  (claim10_validator_accepts_formatted ("1234567890123456".data)).2
    (by decide)

theorem claim6_extractor_total_truncating_witness :
    Char.isDigit '1' = true :=
  (claim6_extractor_total_truncating ("1a".data) 16).2.1 '1' (by decide)
